import Mathlib

/-!
Shallow embedding of the envtpl repository (envtpl.py and renvtpl.py):
jinja2 template rendering with shell environment vars.

Python strings are modelled as lists of characters (`PyStr`).  The external
jinja2 engine is modelled on templates consisting of literal text and
variable references, which is the fragment the specification's rendering
claims quantify over; the two undefined-variable policies
(`jinja2.StrictUndefined` / `jinja2.Undefined`) follow jinja2's documented
semantics: a strict undefined reference raises `UndefinedError`, a lenient
one renders as empty text.  Filesystem effects of `process_file` and of the
`renvtpl` directory walk are recorded as traces of operations.
-/

namespace Envtpl

/-- Python strings, modelled as lists of characters. -/
abbrev PyStr := List Char

instance {ε α : Type} [DecidableEq ε] [DecidableEq α] : DecidableEq (Except ε α) :=
  fun a b =>
    match a, b with
    | .ok x, .ok y =>
      if h : x = y then .isTrue (by rw [h]) else .isFalse (fun hh => h (Except.ok.inj hh))
    | .error x, .error y =>
      if h : x = y then .isTrue (by rw [h]) else .isFalse (fun hh => h (Except.error.inj hh))
    | .ok _, .error _ => .isFalse (fun hh => Except.noConfusion hh)
    | .error _, .ok _ => .isFalse (fun hh => Except.noConfusion hh)

/-- `class Fatal(Exception)` (envtpl.py line 301): envtpl's user-facing error. -/
structure Fatal where
  msg : PyStr
  deriving DecidableEq

/-- A parsed template piece: literal text or a variable reference
`{\x7b name \x7d}`.  This is the fragment of jinja2's template language the
rendering claims are about. -/
inductive Tok
  | lit (s : PyStr)
  | var (name : PyStr)
  deriving DecidableEq

/-- A parsed template. -/
abbrev Template := List Tok

/-- The undefined-variable policy handed to `jinja2.Environment`:
`jinja2.StrictUndefined` when `die_on_missing_variable`, else
`jinja2.Undefined` (envtpl.py lines 112-115 and 169-172). -/
inductive UndefinedPolicy
  | strictUndefined
  | undefined
  deriving DecidableEq

/-- envtpl.py lines 112-115 / 169-172: choice of the undefined policy from
the `die_on_missing_variable` flag. -/
def chooseUndefined (die_on_missing_variable : Bool) : UndefinedPolicy :=
  if die_on_missing_variable then .strictUndefined else .undefined

/-- Model of `template.render(**vars)` (external jinja2 engine) on the
literal/variable fragment.  Under `StrictUndefined` the first reference to a
variable absent from the mapping raises `jinja2.UndefinedError` (the
`.error` case, carrying the engine's message); under `Undefined` an absent
variable renders as empty text. -/
def renderTemplate (vars : PyStr → Option PyStr) (u : UndefinedPolicy) :
    Template → Except PyStr PyStr
  | [] => .ok []
  | .lit s :: rest => (renderTemplate vars u rest).map (fun t => s ++ t)
  | .var n :: rest =>
    match vars n with
    | some v => (renderTemplate vars u rest).map (fun t => v ++ t)
    | none =>
      match u with
      | .strictUndefined => .error (n ++ (" is undefined".data))
      | .undefined => (renderTemplate vars u rest).map (fun t => [] ++ t)

/-- Python `s.split(sep)` for a one-character separator: `''.split(sep)` is
`['']`, and every occurrence of the separator starts a new field. -/
def pySplit (sep : Char) : PyStr → List PyStr
  | [] => [[]]
  | c :: rest =>
    match pySplit sep rest with
    | [] => [[]]
    | h :: t => if c = sep then [] :: h :: t else (c :: h) :: t

/-- Python `s.split(sep)[-1]`: the last field of the split (the split is
never empty, so the `[]` default is never used). -/
def lastField (sep : Char) (s : PyStr) : PyStr :=
  (pySplit sep s).getLastD []

/-- envtpl.py lines 246-249: "jinja2 cuts the last newline" repair.
`if source.split('\n')[-1] == '' and output.split('\n')[-1] != '':
output += '\n'`. -/
def fixNewline (source output : PyStr) : PyStr :=
  if lastField '\n' source = [] ∧ lastField '\n' output ≠ [] then
    output ++ ['\n']
  else
    output

/-- Python's regex class `\s` on the ASCII range: the whitespace characters
space, tab, newline, carriage return, vertical tab, form feed. -/
def isSpace (c : Char) : Bool :=
  c = ' ' || c = '\t' || c = '\n' || c = '\r' || c = '\x0b' || c = '\x0c'

/-- Split a character list at its last newline: returns `(w₁, w₂)` with
`w = w₁ ++ '\n' :: w₂` and no newline in `w₂`; `none` if `w` has no
newline.  Used to model the greedy backtracking of `\s*` before the final
`\n` of the pattern. -/
def splitLastNl : PyStr → Option (PyStr × PyStr)
  | [] => none
  | c :: rest =>
    match splitLastNl rest with
    | some (w1, w2) => some (c :: w1, w2)
    | none => if c = '\n' then some ([], rest) else none

/-- envtpl.py line 253: `re.sub(r'\n\s*\n', '\n\n', output)`.  A match
starts at a newline; the greedy `\s*` runs through the maximal whitespace
run that follows and backtracks to the last newline inside it; the match is
replaced by two newlines and scanning resumes after the match. -/
def sub1 : PyStr → PyStr
  | [] => []
  | c :: rest =>
    if c = '\n' then
      match splitLastNl (rest.takeWhile isSpace) with
      | some (w1, _) => '\n' :: '\n' :: sub1 (rest.drop (w1.length + 1))
      | none => c :: sub1 rest
    else c :: sub1 rest
termination_by l => l.length
decreasing_by
  · simp only [List.length_drop, List.length_cons]
    omega
  · simp only [List.length_cons]
    omega
  · simp only [List.length_cons]
    omega

/-- envtpl.py line 254: `re.sub(r'^\ns*\n', '\n', output)`.  The pattern is
anchored at the start and matches a newline, a run of the literal character
`s` (the pattern says `s*`, not `\s*`), and a newline; the match is
replaced by a single newline. -/
def sub2 (l : PyStr) : PyStr :=
  match l with
  | '\n' :: rest =>
    match rest.drop (rest.takeWhile (fun c => c = 's')).length with
    | '\n' :: tail => '\n' :: tail
    | _ => l
  | _ => l

/-- envtpl.py lines 251-254: the blank-line reduction applied when
`keep_multi_blank_lines` is false. -/
def reduceBlank (l : PyStr) : PyStr :=
  sub2 (sub1 l)

/-- envtpl.py lines 228-256, `_render`: render the template, turning a
`jinja2.UndefinedError` into `Fatal`, then repair the trailing newline from
the loader's source, then optionally reduce blank lines.  The template and
its source text stand for `env.get_template(template_name)` and
`loader.get_source(env, template_name)`. -/
def _render (template : Template) (source : PyStr) (vars : PyStr → Option PyStr)
    (undefined : UndefinedPolicy) (keep_multi_blank_lines : Bool) : Except Fatal PyStr :=
  match renderTemplate vars undefined template with
  | .error e => .error ⟨e⟩
  | .ok output =>
    let output := fixNewline source output
    let output := if keep_multi_blank_lines then output else reduceBlank output
    .ok output

/-- First-match lookup in an association list; models lookup in a Python
dict whose keys are distinct. -/
def lookupVar : List (PyStr × PyStr) → PyStr → Option PyStr
  | [], _ => none
  | (k, v) :: rest, key => if k = key then some v else lookupVar rest key

/-- envtpl.py lines 146-179, `render_string`: the environment vars are
merged with `extra_variables` (extras override), the undefined policy is
chosen from `die_on_missing_variable`, and `_render` is applied.  `environ`
models `os.environ.items()`. -/
def render_string (environ : List (PyStr × PyStr)) (template : Template) (source : PyStr)
    (extra_variables : List (PyStr × PyStr)) (die_on_missing_variable : Bool)
    (keep_multi_blank_lines : Bool) : Except Fatal PyStr :=
  let vars : PyStr → Option PyStr := fun k =>
    match lookupVar extra_variables k with
    | some v => some v
    | none => lookupVar environ k
  _render template source vars (chooseUndefined die_on_missing_variable)
    keep_multi_blank_lines

/-- envtpl.py lines 86-101: `main` exits 1 when `process_file` raises
`Fatal` (after printing the message) and 0 otherwise. -/
def mainExitStatus (r : Except Fatal PyStr) : Nat :=
  match r with
  | .error _ => 1
  | .ok _ => 0

/-- Filesystem operations performed by `process_file`, in order. -/
inductive FsOp
  | fileWrite (name : PyStr) (content : PyStr)
  | stdoutWrite (content : PyStr)
  | unlink (name : PyStr)
  deriving DecidableEq

/-- envtpl.py line 44: `EXTENSION = '.tpl'`. -/
def EXTENSION : PyStr := ".tpl".data

/-- envtpl.py lines 104-143, `process_file`: the keep-template check, the
default output-filename derivation, rendering, the write to the output file
(or stdout when the output name is empty or `-`), and the deletion of the
input template.  An empty `input_filename`/`output_filename` models
Python-falsy `None`/`''`.  The input's parsed template and source text
stand for the file contents read through the jinja2 loader (or stdin).
Returns the ordered filesystem operations performed and the `Fatal` error,
if one was raised (operations after a raise do not happen). -/
def process_file (input_filename output_filename : PyStr)
    (template : Template) (source : PyStr)
    (vars : PyStr → Option PyStr)
    (die_on_missing_variable remove_template : Bool)
    (keep_multi_blank_lines : Bool) : List FsOp × Option Fatal :=
  if input_filename = [] ∧ remove_template = false then
    ([], some ⟨"--keep-template only makes sense if you specify an input file".data⟩)
  else
    let undefined := chooseUndefined die_on_missing_variable
    let derived : Except Fatal PyStr :=
      if input_filename ≠ [] ∧ output_filename = [] then
        if ¬ EXTENSION.isSuffixOf input_filename then
          .error ⟨"If no output filename is given, input filename must end in .tpl".data⟩
        else
          let o := input_filename.take (input_filename.length - EXTENSION.length)
          if o = [] then .error ⟨"Output filename is empty".data⟩ else .ok o
      else
        .ok output_filename
    match derived with
    | .error e => ([], some e)
    | .ok output_filename =>
      match _render template source vars undefined keep_multi_blank_lines with
      | .error e => ([], some e)
      | .ok output =>
        let writeOps :=
          if output_filename ≠ [] ∧ output_filename ≠ "-".data then
            [FsOp.fileWrite output_filename output]
          else
            [FsOp.stdoutWrite output]
        let unlinkOps :=
          if input_filename ≠ [] ∧ remove_template then [FsOp.unlink input_filename] else []
        (writeOps ++ unlinkOps, none)

/-- A file met by the renvtpl.py directory walk: its name, whether
`is_binary` reports it binary, and (for text files) its parsed template and
source text. -/
structure SrcFile where
  name : PyStr
  binary : Bool
  template : Template
  source : PyStr

/-- Filesystem operations performed by the renvtpl.py walk, in order. -/
inductive ROp
  | copyBin (name : PyStr)
  | openTrunc (name : PyStr)
  | writeOut (name : PyStr) (content : PyStr)
  deriving DecidableEq

/-- renvtpl.py lines 94-110: for each file, binary files are copied; text
files are read, the target is opened with mode `"w"` (created or
truncated), and only then is `envtpl.render_string` called inside the
`with` block and its result written.  An exception from rendering
propagates out of `main`, aborting the walk with the target file already
truncated. -/
def renvtplWalk (environ extra_variables : List (PyStr × PyStr)) (die_on_missing : Bool) :
    List SrcFile → List ROp × Option Fatal
  | [] => ([], none)
  | f :: rest =>
    if f.binary then
      let r := renvtplWalk environ extra_variables die_on_missing rest
      (ROp.copyBin f.name :: r.1, r.2)
    else
      match render_string environ f.template f.source extra_variables die_on_missing true with
      | .error e => ([ROp.openTrunc f.name], some e)
      | .ok out =>
        let r := renvtplWalk environ extra_variables die_on_missing rest
        (ROp.openTrunc f.name :: ROp.writeOut f.name out :: r.1, r.2)

/-- renvtpl.py lines 105-106: `{x.split(',')[0]: x.split(',')[1] for x in
args.extra_var}`.  `none` models the uncaught `IndexError` raised by
`x.split(',')[1]` when `x` contains no comma. -/
def parse_extra_var (x : PyStr) : Option (PyStr × PyStr) :=
  match pySplit ',' x with
  | k :: v :: _ => some (k, v)
  | _ => none

/-- envtpl.py lines 282-287, the `getenv` filter:
`result = os.environ.get(value, default); if result is None: raise ...`. -/
def getenv (environ : PyStr → Option PyStr) (value : PyStr) (default : Option PyStr) :
    Except PyStr PyStr :=
  let result :=
    match environ value with
    | some v => some v
    | none => default
  match result with
  | none => .error ("can\x27t find ".data ++ value ++ " environnement variable".data)
  | some r => .ok r

/-- Model of `subprocess.check_output(cmd, shell=True)`: the external shell
is a function `exec` from a command to its captured output and exit code;
a non-zero exit code raises `CalledProcessError` (the `.error` case). -/
def check_output (exec : PyStr → PyStr × Nat) (cmd : PyStr) : Except PyStr PyStr :=
  if (exec cmd).2 = 0 then .ok (exec cmd).1
  else .error ("CalledProcessError: ".data ++ cmd)

/-- envtpl.py lines 271-279, the `shell` filter: unless `die_on_error`, the
command is wrapped as `"%s ; exit 0" % value` before `check_output`. -/
def shell (exec : PyStr → PyStr × Nat) (value : PyStr) (die_on_error : Bool) :
    Except PyStr PyStr :=
  let cmd := if die_on_error then value else value ++ " ; exit 0".data
  check_output exec cmd

/-- A value visible in the template context: a string variable or a
callable (such as the `environment` global itself). -/
inductive TplValue
  | vstr (s : PyStr)
  | vcallable (name : PyStr)
  deriving DecidableEq

/-- Python `callable(value)` on a `TplValue`. -/
def callable : TplValue → Bool
  | .vstr _ => false
  | .vcallable _ => true

/-- Python string `<` (lexicographic comparison by code point). -/
def strLt : PyStr → PyStr → Bool
  | _, [] => false
  | [], _ :: _ => true
  | a :: as, b :: bs =>
    if a.toNat < b.toNat then true
    else if b.toNat < a.toNat then false
    else strLt as bs

/-- Python string `<=`. -/
def strLe (a b : PyStr) : Bool := !(strLt b a)

/-- envtpl.py lines 259-263, the `environment` global:
`for key, value in sorted(context.items()): if not callable(value) and
key.startswith(prefix): yield key[len(prefix):], value`.  The generator is
modelled as the list of yielded pairs; `sorted` sorts by key (keys of a
context dict are distinct). -/
def get_environment (context : List (PyStr × TplValue)) (pre : PyStr) :
    List (PyStr × TplValue) :=
  ((context.insertionSort (fun a b => strLe a.1 b.1 = true)).filter
      (fun kv => !(callable kv.2) && pre.isPrefixOf kv.1)).map
    (fun kv => (kv.1.drop pre.length, kv.2))

/-! ### Support lemmas about `pySplit` -/

theorem pySplit_ne_nil (sep : Char) (l : PyStr) : pySplit sep l ≠ [] := by
  cases l with
  | nil => simp [pySplit]
  | cons c rest =>
    simp only [pySplit]
    cases pySplit sep rest with
    | nil => simp
    | cons h t =>
      by_cases hc : c = sep <;> simp [hc]

theorem pySplit_of_not_mem (sep : Char) (l : PyStr) (h : sep ∉ l) :
    pySplit sep l = [l] := by
  induction l with
  | nil => rfl
  | cons c rest ih =>
    have hc : c ≠ sep := fun hcs => h (hcs ▸ List.mem_cons_self c rest)
    have hr : sep ∉ rest := fun hm => h (List.mem_cons_of_mem c hm)
    simp [pySplit, ih hr, hc]

theorem pySplit_append_sep (sep : Char) (a r : PyStr) (ha : sep ∉ a) :
    pySplit sep (a ++ sep :: r) = a :: pySplit sep r := by
  induction a with
  | nil =>
    simp only [List.nil_append, pySplit]
    cases hp : pySplit sep r with
    | nil => exact absurd hp (pySplit_ne_nil sep r)
    | cons h t => simp
  | cons c a' ih =>
    have hc : c ≠ sep := fun hcs => ha (hcs ▸ List.mem_cons_self c a')
    have ha' : sep ∉ a' := fun hm => ha (List.mem_cons_of_mem c hm)
    simp only [List.cons_append, pySplit, List.append_eq]
    rw [ih ha']
    simp [hc]

/-- Claim C10: for every `--extra-var` argument, the variable name is the
text before the first comma and the value the text between the first and
second comma (or the rest when there is only one comma), text after a
second comma being discarded; an argument with no comma hits the uncaught
`IndexError` of `x.split(',')[1]` (modelled by `none`). -/
theorem C10_extra_var_parsing (a b c : PyStr) (ha : ',' ∉ a) (hb : ',' ∉ b) :
    parse_extra_var (a ++ ',' :: (b ++ ',' :: c)) = some (a, b) ∧
    parse_extra_var (a ++ ',' :: b) = some (a, b) ∧
    parse_extra_var a = none := by
  refine ⟨?_, ?_, ?_⟩
  · rw [parse_extra_var, pySplit_append_sep ',' a _ ha, pySplit_append_sep ',' b _ hb]
  · rw [parse_extra_var, pySplit_append_sep ',' a _ ha, pySplit_of_not_mem ',' b hb]
  · rw [parse_extra_var, pySplit_of_not_mem ',' a ha]

/-- Witness for C10 at the concrete arguments `K,V,junk`, `K,V` and `KV`. -/
theorem C10_extra_var_parsing_witness :
    parse_extra_var ("K".data ++ ',' :: ("V".data ++ ',' :: "junk".data)) =
      some ("K".data, "V".data) ∧
    parse_extra_var ("K".data ++ ',' :: "V".data) = some ("K".data, "V".data) ∧
    parse_extra_var "KV".data = none :=
  C10_extra_var_parsing "K".data "V".data "junk".data (by decide) (by decide)

/-- Claim C5: `getenv(name)` with no default raises an error whose message
contains the missing name when the variable is unset; `getenv(name,
default)` returns the variable's value when set and the default
otherwise. -/
theorem C5_getenv_default (environ : PyStr → Option PyStr) (name : PyStr) :
    (environ name = none →
      ∃ pre post, getenv environ name none = .error (pre ++ name ++ post)) ∧
    (∀ v, environ name = some v → ∀ d, getenv environ name (some d) = .ok v) ∧
    (environ name = none → ∀ d, getenv environ name (some d) = .ok d) := by
  refine ⟨fun h => ⟨"can\x27t find ".data, " environnement variable".data, ?_⟩,
    fun v h d => ?_, fun h d => ?_⟩ <;> simp [getenv, h]

/-- Witness for C5 with `FOO` unset (and, for the set case, bound
to `val`). -/
theorem C5_getenv_default_witness :
    (∃ pre post, getenv (fun _ => none) "FOO".data none =
      .error (pre ++ "FOO".data ++ post)) ∧
    getenv (fun _ => some "val".data) "FOO".data (some "bar".data) = .ok "val".data ∧
    getenv (fun _ => (none : Option PyStr)) "FOO".data (some "bar".data) =
      .ok "bar".data :=
  ⟨(C5_getenv_default (fun _ => none) "FOO".data).1 rfl,
   (C5_getenv_default (fun _ => some "val".data) "FOO".data).2.1 "val".data rfl "bar".data,
   (C5_getenv_default (fun _ => none) "FOO".data).2.2 rfl "bar".data⟩

/-- Claim C4: with `die_on_error=false` the command is wrapped with
`; exit 0`, so whenever the shell maps wrapped commands to exit status 0
(the defining behaviour of the wrapper), `shell` returns normally even for
a command whose own exit status is non-zero; with `die_on_error=true` a
non-zero exit status raises (`CalledProcessError`). -/
theorem C4_shell_die_on_error (exec : PyStr → PyStr × Nat) (value : PyStr)
    (hwrap : ∀ c, (exec (c ++ " ; exit 0".data)).2 = 0)
    (hfail : (exec value).2 ≠ 0) :
    (∃ out, shell exec value false = .ok out) ∧
    (∃ e, shell exec value true = .error e) := by
  constructor
  · exact ⟨(exec (value ++ " ; exit 0".data)).1,
      by simp [shell, check_output, hwrap value]⟩
  · exact ⟨"CalledProcessError: ".data ++ value,
      by simp [shell, check_output, hfail]⟩

/-- Witness for C4: the spec's `shell("exit 3")` example, with a shell
model under which `exit 3` exits 3 and every `… ; exit 0` command exits 0;
the lenient call returns `.ok` with empty output. -/
theorem C4_shell_die_on_error_witness :
    (∃ out, shell (fun c => ([], if c = "exit 3".data then 3 else 0))
      "exit 3".data false = .ok out) ∧
    (∃ e, shell (fun c => (([] : PyStr), if c = "exit 3".data then 3 else 0))
      "exit 3".data true = .error e) := by
  apply C4_shell_die_on_error
  · intro c
    simp only []
    rw [if_neg]
    intro hcontra
    have hlen := congrArg List.length hcontra
    have h9 : (" ; exit 0".data : PyStr).length = 9 := rfl
    have h6 : ("exit 3".data : PyStr).length = 6 := rfl
    rw [List.length_append, h9, h6] at hlen
    omega
  · decide

/-! ### Support lemmas about `lastField` (the `split('\n')[-1]` idiom) -/

theorem getLast?_mem (a : Char) (l : PyStr) (h : l.getLast? = some a) : a ∈ l := by
  have hx : a ∈ l.getLast? := h
  obtain ⟨hne, h2⟩ := List.mem_getLast?_eq_getLast hx
  exact h2 ▸ List.getLast_mem hne

theorem pySplit_length (sep : Char) (l : PyStr) :
    (pySplit sep l).length = l.count sep + 1 := by
  induction l with
  | nil => simp [pySplit]
  | cons c rest ih =>
    simp only [pySplit]
    cases hp : pySplit sep rest with
    | nil => exact absurd hp (pySplit_ne_nil sep rest)
    | cons h t =>
      rw [hp] at ih
      simp only [List.length_cons] at ih
      by_cases hc : c = sep
      · subst hc
        simp [List.count_cons_self]
        all_goals omega
      · simp [hc, List.count_cons_of_ne (Ne.symm hc)]
        all_goals omega

theorem getLastD_irrel {α : Type} (l : List α) (hl : l ≠ []) (x y : α) :
    l.getLastD x = l.getLastD y := by
  rw [List.getLastD_eq_getLast?, List.getLastD_eq_getLast?,
    List.getLast?_eq_getLast _ hl]
  simp

theorem lastField_cons (sep c : Char) (m : PyStr) :
    lastField sep (c :: m) =
      if sep ∈ m then lastField sep m
      else if c = sep then m else c :: m := by
  by_cases hm : sep ∈ m
  · rw [if_pos hm]
    have hcount : 0 < m.count sep := List.count_pos_iff.mpr hm
    have hlen := pySplit_length sep m
    cases hp : pySplit sep m with
    | nil => exact absurd hp (pySplit_ne_nil sep m)
    | cons h t =>
      cases t with
      | nil =>
        rw [hp] at hlen
        simp at hlen
        omega
      | cons t0 ts =>
        simp only [lastField, pySplit, hp]
        by_cases hc : c = sep
        · rw [if_pos hc, List.getLastD_cons]
        · rw [if_neg hc, List.getLastD_cons [] (c :: h) (t0 :: ts),
            List.getLastD_cons [] h (t0 :: ts)]
          exact getLastD_irrel _ (List.cons_ne_nil t0 ts) _ _
  · rw [if_neg hm]
    have hp := pySplit_of_not_mem sep m hm
    simp only [lastField, pySplit, hp]
    by_cases hc : c = sep
    · rw [if_pos hc, if_pos hc, List.getLastD_cons]
      rfl
    · rw [if_neg hc, if_neg hc]
      rfl

theorem lastField_eq_nil_iff (sep : Char) (l : PyStr) :
    lastField sep l = [] ↔ l = [] ∨ l.getLast? = some sep := by
  induction l with
  | nil => simp [lastField, pySplit]
  | cons c m ih =>
    rw [lastField_cons]
    by_cases hm : sep ∈ m
    · rw [if_pos hm, ih]
      cases m with
      | nil => simp at hm
      | cons m0 ms => simp [List.getLast?_cons_cons]
    · rw [if_neg hm]
      by_cases hc : c = sep
      · subst hc
        rw [if_pos rfl]
        cases m with
        | nil => simp
        | cons m0 ms =>
          simp only [List.getLast?_cons_cons, List.cons_ne_nil, false_or]
          constructor
          · intro h
            simp at h
          · intro h
            exact absurd (getLast?_mem _ _ h) hm
      · rw [if_neg hc]
        simp only [List.cons_ne_nil, false_or, false_iff]
        cases m with
        | nil =>
          simp only [List.getLast?_singleton]
          exact fun h => hc (Option.some.inj h)
        | cons m0 ms =>
          rw [List.getLast?_cons_cons]
          exact fun h => hm (getLast?_mem _ _ h)

/-- Claim C2 counterexample: the template source `"\n"` ends with a
newline, the rendered output `""` does not (jinja2 renders the template
`"\n"` to `""`), yet no newline is appended: the code tests the last
`split('\n')` field of the output, which is empty for an empty output. -/
theorem C2_counterexample :
    ¬ (∀ source output : PyStr,
        (source.getLast? = some '\n' → output.getLast? ≠ some '\n' →
          fixNewline source output = output ++ ['\n']) ∧
        (source.getLast? ≠ some '\n' → fixNewline source output = output)) := by
  intro h
  have h1 := (h ['\n'] []).1 rfl (by simp)
  have h2 : fixNewline ['\n'] [] = [] := by decide
  rw [h2] at h1
  simp at h1

/-- Claim C2 amended: one newline is appended exactly when the source is
empty or ends with a newline AND the output is nonempty and does not end
with a newline; otherwise the output is unchanged.  (So no newline is
appended to an empty output even when the source ends with a newline, and
one is appended for an empty source with newline-less nonempty output.) -/
theorem C2_newline_repair (source output : PyStr) :
    fixNewline source output =
      if (source = [] ∨ source.getLast? = some '\n') ∧
          output ≠ [] ∧ output.getLast? ≠ some '\n' then
        output ++ ['\n']
      else output := by
  simp only [fixNewline, lastField_eq_nil_iff, not_or, ne_eq]

/-! ### Rendering-policy lemmas (claim C1) -/

theorem renderTemplate_lenient_totalize (vars : PyStr → Option PyStr) (tpl : Template) :
    renderTemplate vars .undefined tpl =
      renderTemplate (fun n => some ((vars n).getD [])) .strictUndefined tpl := by
  induction tpl with
  | nil => rfl
  | cons t rest ih =>
    cases t with
    | lit s => simp [renderTemplate, ih]
    | var n =>
      cases h : vars n with
      | some v => simp [renderTemplate, h, ih]
      | none => simp [renderTemplate, h, ih]

theorem renderTemplate_strict_error (vars : PyStr → Option PyStr) (tpl : Template)
    (h : ∃ n, Tok.var n ∈ tpl ∧ vars n = none) :
    ∃ e, renderTemplate vars .strictUndefined tpl = .error e := by
  induction tpl with
  | nil =>
    obtain ⟨n, hmem, _⟩ := h
    simp at hmem
  | cons t rest ih =>
    obtain ⟨n, hmem, hnone⟩ := h
    cases t with
    | lit s =>
      have hr : Tok.var n ∈ rest := by simpa using hmem
      obtain ⟨e, he⟩ := ih ⟨n, hr, hnone⟩
      exact ⟨e, by simp [renderTemplate, he, Except.map]⟩
    | var m =>
      cases hv : vars m with
      | none => exact ⟨m ++ " is undefined".data, by simp [renderTemplate, hv]⟩
      | some v =>
        have hr : Tok.var n ∈ rest := by
          rcases List.mem_cons.mp hmem with h1 | h1
          · injection h1 with h2
            subst h2
            rw [hnone] at hv
            cases hv
          · exact h1
        obtain ⟨e, he⟩ := ih ⟨n, hr, hnone⟩
        exact ⟨e, by simp [renderTemplate, hv, he, Except.map]⟩

theorem renderTemplate_lenient_ok (vars : PyStr → Option PyStr) (tpl : Template) :
    ∃ out, renderTemplate vars .undefined tpl = .ok out := by
  induction tpl with
  | nil => exact ⟨[], rfl⟩
  | cons t rest ih =>
    obtain ⟨out, hout⟩ := ih
    cases t with
    | lit s => exact ⟨s ++ out, by simp [renderTemplate, hout, Except.map]⟩
    | var n =>
      cases h : vars n with
      | some v => exact ⟨v ++ out, by simp [renderTemplate, h, hout, Except.map]⟩
      | none => exact ⟨[] ++ out, by simp [renderTemplate, h, hout, Except.map]⟩

/-- Claim C1: when the template references a variable absent from the
mapping, strict rendering aborts with a `Fatal` error, while lenient
rendering completes (undefined references behave exactly as if every
missing variable were the empty string) and the process exits 0. -/
theorem C1_undefined_variable_policy (tpl : Template) (source : PyStr)
    (vars : PyStr → Option PyStr) (keep : Bool)
    (h : ∃ n, Tok.var n ∈ tpl ∧ vars n = none) :
    (∃ e, _render tpl source vars .strictUndefined keep = .error e) ∧
    (∃ out, _render tpl source vars .undefined keep = .ok out) ∧
    renderTemplate vars .undefined tpl =
      renderTemplate (fun n => some ((vars n).getD [])) .strictUndefined tpl ∧
    mainExitStatus (_render tpl source vars .undefined keep) = 0 := by
  obtain ⟨e, he⟩ := renderTemplate_strict_error vars tpl h
  obtain ⟨out, hout⟩ := renderTemplate_lenient_ok vars tpl
  refine ⟨⟨⟨e⟩, ?_⟩, ⟨?_, ?_⟩, renderTemplate_lenient_totalize vars tpl, ?_⟩
  · simp [_render, he]
  · exact if keep then fixNewline source out else reduceBlank (fixNewline source out)
  · simp only [_render, hout]
  · simp [_render, hout, mainExitStatus]

/-- Witness for C1 at the template `{\x7b X \x7d}` with an empty variable
mapping. -/
theorem C1_undefined_variable_policy_witness :
    (∃ e, _render [Tok.var "X".data] [] (fun _ => none) .strictUndefined true =
      .error e) ∧
    (∃ out, _render [Tok.var "X".data] [] (fun _ => none) .undefined true =
      .ok out) ∧
    renderTemplate (fun _ => none) .undefined [Tok.var "X".data] =
      renderTemplate (fun n => some (((fun _ => (none : Option PyStr)) n).getD []))
        .strictUndefined [Tok.var "X".data] ∧
    mainExitStatus (_render [Tok.var "X".data] [] (fun _ => none) .undefined true) =
      0 :=
  C1_undefined_variable_policy [Tok.var "X".data] [] (fun _ => none) true
    ⟨"X".data, List.mem_singleton_self _, rfl⟩

/-! ### `process_file` and the directory walk (claims C7, C8, C9) -/

/-- Claim C7 counterexample: the input filename `.tpl` ends with the
`.tpl` suffix, yet processing fails with the Fatal error `Output filename
is empty` instead of deriving the (empty) output path by stripping the
suffix. -/
theorem C7_counterexample :
    EXTENSION.isSuffixOf ".tpl".data = true ∧
    process_file ".tpl".data [] [Tok.lit "x".data] "x".data (fun _ => none)
      true true true = ([], some ⟨"Output filename is empty".data⟩) := by
  constructor
  · decide
  · decide

/-- Claim C7 amended: without an explicit output filename, an input not
ending in `.tpl` is a Fatal error raised before any rendering (the result
does not depend on the template or the variables); an input ending in
`.tpl` whose stripped name is empty (the input `.tpl` itself) is likewise
a Fatal error; otherwise the output path is the input minus the suffix, as
exhibited by the file-write operation after a successful render. -/
theorem C7_default_output_name (input : PyStr) (tpl : Template) (src : PyStr)
    (vars : PyStr → Option PyStr) (die remove keep : Bool) (hin : input ≠ []) :
    (¬ EXTENSION.isSuffixOf input = true →
      process_file input [] tpl src vars die remove keep =
        ([], some ⟨"If no output filename is given, input filename must end in .tpl".data⟩)) ∧
    (EXTENSION.isSuffixOf input = true →
      input.take (input.length - EXTENSION.length) = [] →
      process_file input [] tpl src vars die remove keep =
        ([], some ⟨"Output filename is empty".data⟩)) ∧
    (∀ out, EXTENSION.isSuffixOf input = true →
      input.take (input.length - EXTENSION.length) ≠ [] →
      input.take (input.length - EXTENSION.length) ≠ "-".data →
      _render tpl src vars (chooseUndefined die) keep = .ok out →
      process_file input [] tpl src vars die remove keep =
        (FsOp.fileWrite (input.take (input.length - EXTENSION.length)) out ::
          (if remove then [FsOp.unlink input] else []), none)) := by
  have hcond : ¬ (input = [] ∧ remove = false) := fun hh => hin hh.1
  refine ⟨fun hsuf => ?_, fun hsuf hempty => ?_,
    fun out hsuf hne hdash hrender => ?_⟩
  · simp [process_file, hcond, hin, hsuf]
  · simp [process_file, hcond, hin, hsuf, hempty]
  · simp [process_file, hcond, hin, hsuf, hne, hdash, hrender]

/-- Witness for C7: the non-`.tpl` input `config.yml`, the bare input
`.tpl`, and the spec's `config.yml.tpl` with a successful render. -/
theorem C7_default_output_name_witness :
    process_file "config.yml".data [] [Tok.lit "x\n".data] "x\n".data
      (fun _ => none) true true true =
      ([], some ⟨"If no output filename is given, input filename must end in .tpl".data⟩) ∧
    process_file ".tpl".data [] [Tok.lit "x\n".data] "x\n".data
      (fun _ => none) true false true =
      ([], some ⟨"Output filename is empty".data⟩) ∧
    process_file "config.yml.tpl".data [] [Tok.lit "x\n".data] "x\n".data
      (fun _ => none) true true true =
      (FsOp.fileWrite "config.yml".data "x\n".data ::
        (if true then [FsOp.unlink "config.yml.tpl".data] else []), none) := by
  refine ⟨(C7_default_output_name "config.yml".data [Tok.lit "x\n".data] "x\n".data
      (fun _ => none) true true true (by decide)).1 (by decide),
    (C7_default_output_name ".tpl".data [Tok.lit "x\n".data] "x\n".data
      (fun _ => none) true false true (by decide)).2.1 (by decide) (by decide),
    ?_⟩
  have h := (C7_default_output_name "config.yml.tpl".data [Tok.lit "x\n".data]
      "x\n".data (fun _ => none) true true true (by decide)).2.2
    "x\n".data (by decide) (by decide) (by decide) (by decide)
  simpa using h

/-- Claim C8: with an input file and an explicit output filename, no
filesystem operation happens when rendering fails (the output file is
untouched), and on success the output-file write comes first, followed by
deletion of the input template exactly when `remove_template` is set
(that is, unless `--keep-template` was passed). -/
theorem C8_write_then_unlink (input o : PyStr) (tpl : Template) (src : PyStr)
    (vars : PyStr → Option PyStr) (die remove keep : Bool)
    (hin : input ≠ []) (ho : o ≠ []) :
    (∀ e, _render tpl src vars (chooseUndefined die) keep = .error e →
      process_file input o tpl src vars die remove keep = ([], some e)) ∧
    (∀ out, o ≠ "-".data →
      _render tpl src vars (chooseUndefined die) keep = .ok out →
      process_file input o tpl src vars die remove keep =
        (FsOp.fileWrite o out :: (if remove then [FsOp.unlink input] else []),
          none)) := by
  have hcond : ¬ (input = [] ∧ remove = false) := fun hh => hin hh.1
  have hder : ¬ (input ≠ [] ∧ o = []) := fun hh => ho hh.2
  constructor
  · intro e he
    simp [process_file, hcond, hder, he]
  · intro out hdash hrender
    simp [process_file, hcond, hder, hrender, hin, ho, hdash]

/-- Witness for C8: the end-to-end example—`config.yml.tpl` containing
`port: \x7b\x7b PORT \x7d\x7d` with `PORT=9000` writes `config.yml` with
content `port: 9000` and a newline, then unlinks the template; a failing
render (undefined `X`, strict) performs no operation. -/
theorem C8_write_then_unlink_witness :
    process_file "config.yml.tpl".data "config.yml".data
      [Tok.lit "port: ".data, Tok.var "PORT".data, Tok.lit "\n".data]
      "port: \x7b\x7b PORT \x7d\x7d\n".data
      (fun n => if n = "PORT".data then some "9000".data else none)
      true true true =
      (FsOp.fileWrite "config.yml".data "port: 9000\n".data ::
        [FsOp.unlink "config.yml.tpl".data], none) ∧
    process_file "config.yml.tpl".data "config.yml".data
      [Tok.var "X".data] "\x7b\x7b X \x7d\x7d".data (fun _ => none)
      true true true = ([], some ⟨"X".data ++ " is undefined".data⟩) := by
  constructor
  · have h := (C8_write_then_unlink "config.yml.tpl".data "config.yml".data
      [Tok.lit "port: ".data, Tok.var "PORT".data, Tok.lit "\n".data]
      "port: \x7b\x7b PORT \x7d\x7d\n".data
      (fun n => if n = "PORT".data then some "9000".data else none)
      true true true (by decide) (by decide)).2
      "port: 9000\n".data (by decide) (by decide)
    simpa using h
  · exact (C8_write_then_unlink "config.yml.tpl".data "config.yml".data
      [Tok.var "X".data] "\x7b\x7b X \x7d\x7d".data (fun _ => none)
      true true true (by decide) (by decide)).1
      ⟨"X".data ++ " is undefined".data⟩ (by decide)

/-- Claim C9: in the directory walk a non-binary file's target is opened
for writing (created or truncated) before rendering begins, so when
rendering that file raises, the walk aborts with exactly the empty
truncated target file recorded and no later file touched. -/
theorem C9_open_before_render (environ extra : List (PyStr × PyStr)) (die : Bool)
    (f : SrcFile) (rest : List SrcFile) (hbin : f.binary = false) (e : Fatal)
    (hfail : render_string environ f.template f.source extra die true = .error e) :
    renvtplWalk environ extra die (f :: rest) = ([ROp.openTrunc f.name], some e) := by
  simp [renvtplWalk, hbin, hfail]

/-- Witness for C9: a walk over one text file whose template references
the unset `X` under `--die-on-missing`. -/
theorem C9_open_before_render_witness :
    renvtplWalk [] [] true
      [⟨"conf.txt".data, false, [Tok.var "X".data], "\x7b\x7b X \x7d\x7d".data⟩] =
      ([ROp.openTrunc "conf.txt".data], some ⟨"X".data ++ " is undefined".data⟩) :=
  C9_open_before_render [] [] true _ [] rfl _ (by decide)

/-! ### Blank-line collapsing (claim C3) -/

theorem sub1_nil : sub1 [] = [] := by
  simp [sub1]

theorem sub1_cons_ne (c : Char) (rest : PyStr) (hc : ¬ c = '\n') :
    sub1 (c :: rest) = c :: sub1 rest := by
  rw [sub1]
  simp [hc]

theorem sub1_cons_nl_match (rest w1 w2 : PyStr)
    (h : splitLastNl (rest.takeWhile isSpace) = some (w1, w2)) :
    sub1 ('\n' :: rest) = '\n' :: '\n' :: sub1 (rest.drop (w1.length + 1)) := by
  rw [sub1]
  simp [h]

theorem sub1_cons_nl_nomatch (rest : PyStr)
    (h : splitLastNl (rest.takeWhile isSpace) = none) :
    sub1 ('\n' :: rest) = '\n' :: sub1 rest := by
  rw [sub1]
  simp [h]

theorem takeWhile_replicate_append (p : Char → Bool) (c : Char) (hc : p c = true)
    (n : Nat) (l : PyStr) :
    ((List.replicate n c ++ l).takeWhile p) = List.replicate n c ++ l.takeWhile p := by
  induction n with
  | zero => simp
  | succ n ih => simp [List.replicate_succ, List.takeWhile_cons, hc, ih]

theorem splitLastNl_cons_some (c : Char) (m w1 w2 : PyStr)
    (h : splitLastNl m = some (w1, w2)) :
    splitLastNl (c :: m) = some (c :: w1, w2) := by
  simp only [splitLastNl]
  rw [h]

theorem sub1_no_nl (c rest : PyStr) (hc : '\n' ∉ c) :
    sub1 (c ++ rest) = c ++ sub1 rest := by
  induction c with
  | nil => simp
  | cons x xs ih =>
    have hx : ¬ x = '\n' := fun h => hc (h ▸ List.mem_cons_self x xs)
    have hxs : '\n' ∉ xs := fun hm => hc (List.mem_cons_of_mem x hm)
    rw [List.cons_append, sub1_cons_ne x _ hx, ih hxs, List.cons_append]

theorem takeWhile_ws_append (m : PyStr) (hm : ∀ x ∈ m, isSpace x = true)
    (rest : PyStr) (hrest : rest.takeWhile isSpace = []) :
    ((m ++ rest).takeWhile isSpace) = m := by
  induction m with
  | nil => simpa using hrest
  | cons x xs ih =>
    have hx : isSpace x = true := hm x (List.mem_cons_self x xs)
    have hxs : ∀ y ∈ xs, isSpace y = true :=
      fun y hy => hm y (List.mem_cons_of_mem x hy)
    rw [List.cons_append, List.takeWhile_cons, hx]
    simp [ih hxs]

theorem splitLastNl_eq_none (z : PyStr) (hz : '\n' ∉ z) : splitLastNl z = none := by
  induction z with
  | nil => rfl
  | cons x xs ih =>
    have hx : ¬ x = '\n' := fun h => hz (h ▸ List.mem_cons_self x xs)
    have hxs : '\n' ∉ xs := fun hm => hz (List.mem_cons_of_mem x hm)
    simp only [splitLastNl, ih hxs]
    simp [hx]

theorem splitLastNl_append_last (m z : PyStr) (hz : '\n' ∉ z) :
    splitLastNl (m ++ '\n' :: z) = some (m, z) := by
  induction m with
  | nil =>
    simp only [List.nil_append, splitLastNl, splitLastNl_eq_none z hz]
    simp
  | cons x xs ih =>
    rw [List.cons_append, splitLastNl_cons_some x _ _ _ ih]

theorem sub1_ws_run (a m z rest : PyStr) (hna : '\n' ∉ a)
    (hm : ∀ x ∈ m, isSpace x = true) (hz : ∀ x ∈ z, isSpace x = true)
    (hnz : '\n' ∉ z) (hrest : rest.takeWhile isSpace = []) :
    sub1 (a ++ '\n' :: (m ++ '\n' :: (z ++ rest))) =
      a ++ '\n' :: '\n' :: (z ++ sub1 rest) := by
  rw [sub1_no_nl a _ hna]
  have htw : ((m ++ '\n' :: (z ++ rest)).takeWhile isSpace) = m ++ '\n' :: z := by
    rw [show m ++ '\n' :: (z ++ rest) = (m ++ '\n' :: z) ++ rest by simp]
    refine takeWhile_ws_append (m ++ '\n' :: z) ?_ rest hrest
    intro x hx
    rcases List.mem_append.mp hx with h | h
    · exact hm x h
    · rcases List.mem_cons.mp h with h | h
      · rw [h]
        decide
      · exact hz x h
  rw [sub1_cons_nl_match _ m z (by rw [htw]; exact splitLastNl_append_last m z hnz)]
  have hdrop : ((m ++ '\n' :: (z ++ rest)).drop (m.length + 1)) = z ++ rest := by
    rw [show m ++ '\n' :: (z ++ rest) = (m ++ ['\n']) ++ (z ++ rest) by simp]
    have hd := List.drop_left (m ++ ['\n']) (z ++ rest)
    simpa using hd
  rw [hdrop, sub1_no_nl z rest hnz]

theorem sub1_single_nl (a z rest : PyStr) (hna : '\n' ∉ a)
    (hz : ∀ x ∈ z, isSpace x = true) (hnz : '\n' ∉ z)
    (hrest : rest.takeWhile isSpace = []) :
    sub1 (a ++ '\n' :: (z ++ rest)) = a ++ '\n' :: (z ++ sub1 rest) := by
  rw [sub1_no_nl a _ hna,
    sub1_cons_nl_nomatch (z ++ rest)
      (by rw [takeWhile_ws_append z hz rest hrest]; exact splitLastNl_eq_none z hnz),
    sub1_no_nl z rest hnz]

theorem sub2_match (k : Nat) (t : PyStr) :
    sub2 ('\n' :: (List.replicate k 's' ++ '\n' :: t)) = '\n' :: t := by
  have ht : ((List.replicate k 's' ++ '\n' :: t).takeWhile (fun c => c = 's')) =
      List.replicate k 's' := by
    rw [takeWhile_replicate_append _ _ (by decide)]
    simp [List.takeWhile_cons]
  have hd := List.drop_left (List.replicate k 's') ('\n' :: t)
  simp only [sub2, ht, hd]

theorem sub2_no_nl_head (c : Char) (t : PyStr) (hc : ¬ c = '\n') :
    sub2 (c :: t) = c :: t := by
  rw [sub2]
  intro rest heq
  exact hc (List.cons.inj heq).1

/-- Claim C3 counterexample: with collapsing requested, the leading blank
line-run of `"\n\nfoo"` is reduced to a single leading newline, not
stripped (`"\nfoo"`, not `"foo"`), and the second substitution's pattern
`^\ns*\n` matches the literal character `s`, so the content line `s` of
`"\ns\nfoo"` is silently deleted (also giving `"\nfoo"`). -/
theorem C3_counterexample :
    reduceBlank ('\n' :: '\n' :: "foo".data) = '\n' :: "foo".data ∧
    reduceBlank ('\n' :: 's' :: '\n' :: "foo".data) = '\n' :: "foo".data := by
  constructor
  · have h1 : sub1 ('\n' :: '\n' :: "foo".data) = '\n' :: '\n' :: "foo".data := by
      simp [sub1, splitLastNl, isSpace]
    rw [reduceBlank, h1]
    decide
  · have h1 : sub1 ('\n' :: 's' :: '\n' :: "foo".data) =
        '\n' :: 's' :: '\n' :: "foo".data := by
      simp [sub1, splitLastNl, isSpace]
    rw [reduceBlank, h1]
    decide

/-- Claim C3 amended: with the default `keep_multi_blank_lines`, `_render`
returns exactly the newline-repaired render (blank lines untouched), and
with collapsing requested it returns the render piped through the two
substitutions.  The first substitution is characterized on all texts:
newline-free text passes through unchanged; a maximal whitespace run with
at least two newlines—that is, any run of one or more blank or
whitespace-only lines, whatever surrounds it—is replaced by its part
before the first newline, exactly two newlines, and its part after the
last newline (a single blank line), the rest of the text being processed
recursively (so every such run in the text collapses); a run with a single
newline passes through unchanged.  The second substitution replaces a
leading prefix newline, run of literal `s` characters, newline by a single
newline (for every such prefix and any tail) and leaves any text not
starting with a newline unchanged. -/
theorem C3_blank_line_collapsing :
    (∀ (tpl : Template) (src : PyStr) (vars : PyStr → Option PyStr)
      (u : UndefinedPolicy) (out : PyStr),
      _render tpl src vars u true = .ok out →
      ∃ raw, renderTemplate vars u tpl = .ok raw ∧ out = fixNewline src raw) ∧
    (∀ (tpl : Template) (src : PyStr) (vars : PyStr → Option PyStr)
      (u : UndefinedPolicy) (out : PyStr),
      _render tpl src vars u false = .ok out →
      ∃ raw, renderTemplate vars u tpl = .ok raw ∧
        out = sub2 (sub1 (fixNewline src raw))) ∧
    (∀ c rest : PyStr, '\n' ∉ c → sub1 (c ++ rest) = c ++ sub1 rest) ∧
    (∀ a m z rest : PyStr, '\n' ∉ a →
      (∀ x ∈ m, isSpace x = true) → (∀ x ∈ z, isSpace x = true) → '\n' ∉ z →
      rest.takeWhile isSpace = [] →
      sub1 (a ++ '\n' :: (m ++ '\n' :: (z ++ rest))) =
        a ++ '\n' :: '\n' :: (z ++ sub1 rest)) ∧
    (∀ a z rest : PyStr, '\n' ∉ a →
      (∀ x ∈ z, isSpace x = true) → '\n' ∉ z →
      rest.takeWhile isSpace = [] →
      sub1 (a ++ '\n' :: (z ++ rest)) = a ++ '\n' :: (z ++ sub1 rest)) ∧
    (∀ (k : Nat) (t : PyStr),
      sub2 ('\n' :: (List.replicate k 's' ++ '\n' :: t)) = '\n' :: t) ∧
    (∀ (c : Char) (t : PyStr), ¬ c = '\n' → sub2 (c :: t) = c :: t) := by
  refine ⟨?_, ?_, sub1_no_nl, sub1_ws_run, sub1_single_nl, sub2_match,
    sub2_no_nl_head⟩
  · intro tpl src vars u out h
    rw [_render] at h
    cases hr : renderTemplate vars u tpl with
    | error e =>
      rw [hr] at h
      cases h
    | ok raw =>
      rw [hr] at h
      simp at h
      exact ⟨raw, rfl, h.symm⟩
  · intro tpl src vars u out h
    rw [_render] at h
    cases hr : renderTemplate vars u tpl with
    | error e =>
      rw [hr] at h
      cases h
    | ok raw =>
      rw [hr] at h
      simp [reduceBlank] at h
      exact ⟨raw, rfl, h.symm⟩

/-- Witness for C3: the pipeline conjuncts at the literal template `x`
(both `keep_multi_blank_lines` settings), the whitespace-run collapse at a
run containing a tab and trailing space/tab indentation between content
(`" \n\t\n \tb"` collapses to `" \n\n \tb"`), the single-newline run
`"x\n y"` left unchanged, and the leading substitution at `"\nss\n"`
before an arbitrary-content tail. -/
theorem C3_blank_line_collapsing_witness :
    (∃ raw, renderTemplate (fun _ => none) UndefinedPolicy.strictUndefined
        [Tok.lit "x".data] = .ok raw ∧
      ("x".data ++ ['\n'] : PyStr) = fixNewline [] raw) ∧
    (∃ raw, renderTemplate (fun _ => none) UndefinedPolicy.strictUndefined
        [Tok.lit "x".data] = .ok raw ∧
      ("x".data ++ ['\n'] : PyStr) = sub2 (sub1 (fixNewline [] raw))) ∧
    sub1 (' ' :: '\n' :: '\t' :: '\n' :: ' ' :: '\t' :: ['b']) =
      ' ' :: '\n' :: '\n' :: ' ' :: '\t' :: ['b'] ∧
    sub1 ('x' :: '\n' :: ' ' :: ['y']) = 'x' :: '\n' :: ' ' :: ['y'] ∧
    sub2 ('\n' :: 's' :: 's' :: '\n' :: 'f' :: 'o' :: ['o']) =
      '\n' :: 'f' :: 'o' :: ['o'] := by
  refine ⟨C3_blank_line_collapsing.1 [Tok.lit "x".data] [] (fun _ => none)
      UndefinedPolicy.strictUndefined ("x".data ++ ['\n']) (by decide),
    C3_blank_line_collapsing.2.1 [Tok.lit "x".data] [] (fun _ => none)
      UndefinedPolicy.strictUndefined ("x".data ++ ['\n'])
      (by simp [_render, renderTemplate, fixNewline, lastField, pySplit,
        reduceBlank, sub1, sub2, splitLastNl, isSpace, Except.map]), ?_, ?_, ?_⟩
  · have h := C3_blank_line_collapsing.2.2.2.1 [' '] ['\t'] [' ', '\t'] ['b']
      (by decide) (by decide) (by decide) (by decide) (by decide)
    have h2 : sub1 ['b'] = ['b'] := by simp [sub1]
    rw [h2] at h
    exact h
  · have h := C3_blank_line_collapsing.2.2.2.2.1 ['x'] [' '] ['y']
      (by decide) (by decide) (by decide) (by decide)
    have h2 : sub1 ['y'] = ['y'] := by simp [sub1]
    rw [h2] at h
    exact h
  · exact C3_blank_line_collapsing.2.2.2.2.2.1 2 ('f' :: 'o' :: ['o'])

/-! ### The `environment` global (claim C6) -/

theorem strLt_asymm (a : PyStr) : ∀ b, strLt a b = true → strLt b a = false := by
  induction a with
  | nil =>
    intro b h
    cases b with
    | nil => simp [strLt] at h
    | cons hb tb => simp [strLt]
  | cons ha ta ih =>
    intro b h
    cases b with
    | nil => simp [strLt] at h
    | cons hb tb =>
      simp only [strLt] at h ⊢
      by_cases h1 : ha.toNat < hb.toNat
      · have h2 : ¬ hb.toNat < ha.toNat := by omega
        rw [if_neg h2, if_pos h1]
      · rw [if_neg h1] at h
        by_cases h2 : hb.toNat < ha.toNat
        · rw [if_pos h2] at h
          cases h
        · rw [if_neg h2] at h
          rw [if_neg h2, if_neg h1]
          exact ih tb h

theorem strLt_or (c : PyStr) : ∀ a b : PyStr, strLt c a = true →
    strLt c b = true ∨ strLt b a = true := by
  induction c with
  | nil =>
    intro a b h
    cases a with
    | nil => simp [strLt] at h
    | cons ha ta =>
      cases b with
      | nil => right; simp [strLt]
      | cons hb tb => left; simp [strLt]
  | cons hc tc ih =>
    intro a b h
    cases a with
    | nil => simp [strLt] at h
    | cons ha ta =>
      cases b with
      | nil => right; simp [strLt]
      | cons hb tb =>
        simp only [strLt] at h ⊢
        by_cases h1 : hc.toNat < ha.toNat
        · by_cases h2 : hc.toNat < hb.toNat
          · left; rw [if_pos h2]
          · right
            have h3 : hb.toNat < ha.toNat := by omega
            rw [if_pos h3]
        · by_cases h3 : ha.toNat < hc.toNat
          · rw [if_neg h1, if_pos h3] at h
            cases h
          · rw [if_neg h1, if_neg h3] at h
            by_cases h2 : hc.toNat < hb.toNat
            · left; rw [if_pos h2]
            · by_cases h4 : hb.toNat < hc.toNat
              · right
                have h5 : hb.toNat < ha.toNat := by omega
                rw [if_pos h5]
              · rcases ih ta tb h with h5 | h5
                · left
                  rw [if_neg h2, if_neg h4, h5]
                · right
                  have e1 : ¬ hb.toNat < ha.toNat := by omega
                  have e2 : ¬ ha.toNat < hb.toNat := by omega
                  rw [if_neg e1, if_neg e2, h5]

theorem strLe_total (a b : PyStr) : strLe a b = true ∨ strLe b a = true := by
  by_cases h : strLt b a = true
  · right
    rw [strLe, strLt_asymm b a h]
    rfl
  · left
    rw [strLe]
    cases hb : strLt b a with
    | false => rfl
    | true => exact absurd hb h

theorem strLe_trans (a b c : PyStr) (h1 : strLe a b = true) (h2 : strLe b c = true) :
    strLe a c = true := by
  rw [strLe] at h1 h2 ⊢
  simp only [Bool.not_eq_true'] at h1 h2 ⊢
  by_contra hca
  have hca' : strLt c a = true := by
    cases hh : strLt c a with
    | false => exact absurd hh hca
    | true => rfl
  rcases strLt_or c a b hca' with h | h
  · rw [h] at h2
    cases h2
  · rw [h] at h1
    cases h1

instance : IsTotal (PyStr × TplValue) (fun a b => strLe a.1 b.1 = true) :=
  ⟨fun a b => strLe_total a.1 b.1⟩

instance : IsTrans (PyStr × TplValue) (fun a b => strLe a.1 b.1 = true) :=
  ⟨fun a b c => strLe_trans a.1 b.1 c.1⟩

theorem prefix_append_drop (pre key : PyStr) (h : pre.isPrefixOf key = true) :
    pre ++ key.drop pre.length = key := by
  obtain ⟨t, rfl⟩ := List.isPrefixOf_iff_prefix.mp h
  rw [List.drop_left]

/-- Claim C6: `environment(prefix)` yields exactly the context entries
whose key starts with the prefix and whose value is not callable, in
sorted (original) key order, with the prefix stripped from each yielded
key; over `{APP_PORT: "8080", OTHER: "x"}` with prefix `APP_` it yields
exactly the single pair `("PORT", "8080")`. -/
theorem C6_environment_prefix (context : List (PyStr × TplValue)) (pre : PyStr) :
    (∀ k v, (k, v) ∈ get_environment context pre ↔
      ∃ key, (key, v) ∈ context ∧ callable v = false ∧
        pre.isPrefixOf key = true ∧ k = key.drop pre.length) ∧
    List.Pairwise (fun a b => strLe (pre ++ a.1) (pre ++ b.1) = true)
      (get_environment context pre) ∧
    get_environment [("APP_PORT".data, TplValue.vstr "8080".data),
        ("OTHER".data, TplValue.vstr "x".data)] "APP_".data =
      [("PORT".data, TplValue.vstr "8080".data)] := by
  refine ⟨?_, ?_, ?_⟩
  · intro k v
    simp only [get_environment, List.mem_map, List.mem_filter,
      List.mem_insertionSort, Bool.and_eq_true, Bool.not_eq_true']
    constructor
    · rintro ⟨⟨key, val⟩, ⟨hmem, hcall, hpre⟩, heq⟩
      obtain ⟨hk, hv⟩ := Prod.mk.injEq .. ▸ heq
      exact ⟨key, hv ▸ hmem, hv ▸ hcall, hpre, hk.symm⟩
    · rintro ⟨key, hmem, hcall, hpre, rfl⟩
      exact ⟨(key, v), ⟨hmem, hcall, hpre⟩, rfl⟩
  · have hs : List.Pairwise (fun a b : PyStr × TplValue => strLe a.1 b.1 = true)
        (context.insertionSort (fun a b => strLe a.1 b.1 = true)) :=
      List.sorted_insertionSort _ _
    have hf := hs.filter (fun kv => !(callable kv.2) && pre.isPrefixOf kv.1)
    rw [get_environment, List.pairwise_map]
    refine List.Pairwise.imp_of_mem ?_ hf
    intro a b ha hb hab
    have hpa : pre.isPrefixOf a.1 = true := by
      have h2 := (List.mem_filter.mp ha).2
      simp only [Bool.and_eq_true] at h2
      exact h2.2
    have hpb : pre.isPrefixOf b.1 = true := by
      have h2 := (List.mem_filter.mp hb).2
      simp only [Bool.and_eq_true] at h2
      exact h2.2
    rw [prefix_append_drop _ _ hpa, prefix_append_drop _ _ hpb]
    exact hab
  · decide

end Envtpl
